import Mathlib

/-!
Verification development for the sidereal repository.

Part I embeds the code that actually exists under the repository's source
tree: the Drizzle database schema (src/apps/backend/src/db/schema.ts) and
the Hono HTTP application (src/apps/backend/src/index.ts) together with the
shared HealthStatus type (src/packages/shared-types/src/index.ts).

Part II models the ingestion-and-enrichment orchestrator described by the
specification (intake, ownership registry, scheduler, pipeline runner,
stitcher, read contract).  No code for that orchestrator exists under the
source tree, so those definitions are modelled from the specification text
and are marked as such in their doc comments.
-/

namespace Sidereal

/-! ### Part I: embedding of src/apps/backend/src/db/schema.ts -/

/-- A column declaration of a Drizzle pgTable: its SQL name, its SQL type,
and the modifiers that appear in the source (`.primaryKey()`, `.notNull()`,
`.defaultNow()`). -/
structure PgColumn where
  name : String
  sqlType : String
  isPrimaryKey : Bool
  isNotNull : Bool
  hasDefaultNow : Bool
deriving DecidableEq, Repr

/-- A table declaration of the Drizzle schema: its SQL name and columns. -/
structure PgTable where
  name : String
  columns : List PgColumn
deriving DecidableEq, Repr

/-- The `healthCheck` table of schema.ts:
`pgTable('health_check', { id: serial('id').primaryKey(),
checkedAt: timestamp('checked_at').defaultNow().notNull() })`. -/
def healthCheck : PgTable :=
  { name := "health_check",
    columns :=
      [ { name := "id", sqlType := "serial", isPrimaryKey := true,
          isNotNull := false, hasDefaultNow := false },
        { name := "checked_at", sqlType := "timestamp", isPrimaryKey := false,
          isNotNull := true, hasDefaultNow := true } ] }

/-- All tables exported by schema.ts.  The file exports exactly one table,
`healthCheck`. -/
def schemaTables : List PgTable := [healthCheck]

/-! ### Part I: embedding of src/packages/shared-types/src/index.ts and
src/apps/backend/src/index.ts -/

/-- The two values of the TypeScript union `'healthy' | 'unhealthy'` in the
`status` field of `HealthStatus`. -/
inductive HealthState where
  | healthy
  | unhealthy
deriving DecidableEq, Repr

/-- The optional `database` field of `HealthStatus`. -/
structure DbInfo where
  connected : Bool
  latency : Option Nat
deriving DecidableEq, Repr

/-- The shared `HealthStatus` interface: status, timestamp, service and the
optional database field. -/
structure HealthStatus where
  status : HealthState
  timestamp : String
  service : String
  database : Option DbInfo
deriving DecidableEq, Repr

/-- HTTP methods relevant to the Hono app. -/
inductive Method where
  | GET
  | POST
  | PUT
  | DELETE
  | PATCH
  | OPTIONS
deriving DecidableEq, Repr

/-- An incoming HTTP request, reduced to the routing key Hono dispatches on. -/
structure HttpRequest where
  method : Method
  path : String
deriving DecidableEq, Repr

/-- A response of the app: a JSON `HealthStatus` body with an HTTP status
code, the cors middleware's No Content answer to an OPTIONS preflight, or
Hono's default not-found response. -/
inductive HttpResponse where
  | json (status : Nat) (body : HealthStatus)
  | noContent (status : Nat)
  | notFound (status : Nat)
deriving DecidableEq, Repr

/-- The body built by the GET /health handler in index.ts: a literal
`'healthy'` status, the current timestamp, and the literal `'backend'`
service name; the optional `database` field is not set. -/
def healthHandler (now : String) : HealthStatus :=
  { status := HealthState.healthy, timestamp := now, service := "backend",
    database := none }

/-- Whether a request matches a (method, path) route pair. -/
def matchesRoute (req : HttpRequest) (m : Method) (p : String) : Bool :=
  decide (req.method = m) && decide (req.path = p)

/-- The route table registered on the Hono app in index.ts.  The only route
registration is `app.get('/health', ...)`; the `app.use('/*', cors(...))`
line installs middleware, not a route. -/
def registeredRoutes : List (Method × String × (String → HttpResponse)) :=
  [(Method.GET, "/health", fun now => HttpResponse.json 200 (healthHandler now))]

/-- Hono dispatch including the `app.use('/*', cors(...))` middleware: the
cors middleware short-circuits every OPTIONS request (preflight) on every
path with a 204 No Content response; any other request only gains response
headers from it and falls through to the first registered route matching
the request, and with no match the framework returns its default 404
response. -/
def appFetch (req : HttpRequest) (now : String) : HttpResponse :=
  if req.method = Method.OPTIONS then
    HttpResponse.noContent 204
  else
    match registeredRoutes.find? (fun r => matchesRoute req r.1 r.2.1) with
    | some r => r.2.2 now
    | none => HttpResponse.notFound 404


/-! ### Part II: the ingestion orchestrator, modelled from the spec

The repository's source tree contains no implementation of the
orchestrator (intake, ownership registry, scheduler/queue, pipeline
runner, stitcher, read contract); it is described only in the
specification and the design documents.  The definitions below model it
from the specification text. -/

/-- Modelled from the spec: ProcessingState.status values. -/
inductive Status where
  | unprocessed
  | claimed
  | processed
  | failed
deriving DecidableEq, Repr

/-- Modelled from the spec: a raw entity with identity (providerId,
externalId), an opaque payload and a creation time (missing from the
source tree). -/
structure RawEntity where
  entityId : Nat
  providerId : String
  externalId : String
  payload : String
  createdAt : Nat
deriving DecidableEq, Repr

/-- Modelled from the spec: the per-entity processing state used by the
scheduler (missing from the source tree). -/
structure ProcessingState where
  entityId : Nat
  status : Status
  dueAt : Option Nat
  attemptCount : Nat
  leaseOwner : Option String
  leaseExpiresAt : Option Nat
  lastError : Option String
deriving DecidableEq, Repr

/-- Modelled from the spec: the ownership registry record mapping
(providerId, externalId) to the internal entityId (missing from the
source tree). -/
structure OwnershipRecord where
  providerId : String
  externalId : String
  entityId : Nat
deriving DecidableEq, Repr

/-- Modelled from the spec: a directed, typed relation edge. -/
structure Relation where
  fromEntityId : Nat
  relType : String
  toEntityId : Nat
deriving DecidableEq, Repr

/-- Modelled from the spec: a processor-scoped error entry
{processorId, kind, message}. -/
structure ProcessorError where
  processorId : String
  kind : String
  message : String
deriving DecidableEq, Repr

/-- Modelled from the spec: the stitched, versioned canonical entity
(missing from the source tree). -/
structure CanonicalEntity where
  entityId : Nat
  version : Nat
  metadata : List (String × String)
  relations : List Relation
  errors : List ProcessorError
  lastStitchedAt : Nat
deriving DecidableEq, Repr

/-- Modelled from the spec: the outputs of one pipeline run handed to the
stitcher; `ranProcessors` records which processors ran in this run, used
to clear their prior errors. -/
structure PipelineResult where
  metadataPatch : List (String × String)
  relationsAdded : List Relation
  relationsRemoved : List Relation
  errors : List ProcessorError
  ranProcessors : List String
deriving DecidableEq, Repr

/-- Modelled from the spec: the entity store holding the four persisted
collections plus an id counter; list order of `processing` is insertion
order, which the scheduler uses as its tie-break. -/
structure Store where
  rawEntities : List RawEntity
  processing : List ProcessingState
  canonical : List CanonicalEntity
  ownership : List OwnershipRecord
  nextId : Nat
deriving DecidableEq, Repr

/-- The initial, empty store. -/
def emptyStore : Store :=
  { rawEntities := [], processing := [], canonical := [], ownership := [],
    nextId := 0 }

/-- Ownership registry lookup: the entityId owned by (providerId,
externalId), if registered. -/
def ownerLookup (p x : String) (s : Store) : Option Nat :=
  (s.ownership.find? (fun o =>
    decide (o.providerId = p) && decide (o.externalId = x))).map
    OwnershipRecord.entityId

/-- Modelled from the spec: the read contract `getCanonical`, returning
only committed stitched state; `none` plays the role of NotFound. -/
def getCanonical (eid : Nat) (s : Store) : Option CanonicalEntity :=
  s.canonical.find? (fun c => decide (c.entityId = eid))

/-- Modelled from the spec: the read contract `getProcessingStatus`. -/
def getProcessingStatus (eid : Nat) (s : Store) : Option ProcessingState :=
  s.processing.find? (fun ps => decide (ps.entityId = eid))

/-- Modelled from the spec: intake `emit`.  A new identity creates
RawEntity + OwnershipRecord + ProcessingState(unprocessed, dueAt = now,
attemptCount = 0) and returns a fresh entityId; an existing identity
updates the raw payload, resets its ProcessingState to unprocessed with
dueAt = now, and returns the existing entityId. -/
def emit (p x payload : String) (now : Nat) (s : Store) : Store × Nat :=
  match ownerLookup p x s with
  | some eid =>
      ({ s with
          rawEntities := s.rawEntities.map (fun r =>
            if r.entityId = eid then { r with payload := payload } else r),
          processing := s.processing.map (fun ps =>
            if ps.entityId = eid then
              { ps with
                status := Status.unprocessed, dueAt := some now,
                leaseOwner := none, leaseExpiresAt := none }
            else ps) }, eid)
  | none =>
      ({ rawEntities := s.rawEntities ++
            [{ entityId := s.nextId, providerId := p, externalId := x,
               payload := payload, createdAt := now }],
         processing := s.processing ++
            [{ entityId := s.nextId, status := Status.unprocessed,
               dueAt := some now, attemptCount := 0, leaseOwner := none,
               leaseExpiresAt := none, lastError := none }],
         canonical := s.canonical,
         ownership := s.ownership ++
            [{ providerId := p, externalId := x, entityId := s.nextId }],
         nextId := s.nextId + 1 }, s.nextId)

/-- Modelled from the spec: intake `retract`.  With no OwnershipRecord it
fails with NotFoundError and changes nothing; otherwise it deletes the
RawEntity, OwnershipRecord, ProcessingState and CanonicalEntity of the
entity in one synchronous step. -/
def retract (p x : String) (s : Store) : Except String Store :=
  match ownerLookup p x s with
  | none => Except.error "NotFoundError"
  | some eid => Except.ok
      { rawEntities := s.rawEntities.filter (fun r => !decide (r.entityId = eid)),
        processing := s.processing.filter (fun ps => !decide (ps.entityId = eid)),
        canonical := s.canonical.filter (fun c => !decide (c.entityId = eid)),
        ownership := s.ownership.filter (fun o => !decide (o.entityId = eid)),
        nextId := s.nextId }

/-- Due time of a processing state, defaulting to 0 for the processed
(dueAt = null) case; the scheduler only compares it on eligible rows,
whose dueAt is always set. -/
def dueVal (ps : ProcessingState) : Nat := ps.dueAt.getD 0

/-- Whether an entity is due at `now`. -/
def isDue (now : Nat) (ps : ProcessingState) : Bool :=
  match ps.dueAt with
  | some d => decide (d ≤ now)
  | none => false

/-- Whether a claimed row's lease has passed. -/
def leaseExpired (now : Nat) (ps : ProcessingState) : Bool :=
  match ps.leaseExpiresAt with
  | some t => decide (t < now)
  | none => false

/-- Modelled from the spec: a row the scheduler may hand out — due now and
either unprocessed or claimed with an expired lease. -/
def eligible (now : Nat) (ps : ProcessingState) : Bool :=
  isDue now ps &&
    (decide (ps.status = Status.unprocessed) ||
      (decide (ps.status = Status.claimed) && leaseExpired now ps))

/-- Modelled from the spec: selection of the earliest-due eligible row,
ties broken by insertion order (first such row in the list). -/
def selectDue (now : Nat) (l : List ProcessingState) : Option ProcessingState :=
  (l.filter (eligible now)).find? (fun ps =>
    (l.filter (eligible now)).all (fun q => decide (dueVal ps ≤ dueVal q)))

/-- The field update performed on the row a worker claims. -/
def claimUpdate (w : String) (dur now : Nat) (ps : ProcessingState) : ProcessingState :=
  { ps with
    status := Status.claimed, leaseOwner := some w,
    leaseExpiresAt := some (now + dur), attemptCount := ps.attemptCount + 1 }

/-- Modelled from the spec: scheduler `claim`.  Atomically selects the
earliest-due unprocessed/expired-lease row, marks it claimed for the
worker with a lease until now + dur and an incremented attemptCount, and
returns the entityId; with nothing due it returns none and changes no
state. -/
def claim (w : String) (dur now : Nat) (s : Store) : Store × Option Nat :=
  match selectDue now s.processing with
  | none => (s, none)
  | some ps =>
      ({ s with processing := s.processing.map (fun q =>
          if q.entityId = ps.entityId then claimUpdate w dur now q else q) },
        some ps.entityId)

/-- Modelled from the spec: scheduler retry backoff, exponential and
capped. -/
structure SchedulerConfig where
  maxAttempts : Nat
  backoffBase : Nat
  backoffCap : Nat
deriving DecidableEq, Repr

/-- Exponential backoff capped at the configured ceiling. -/
def backoff (cfg : SchedulerConfig) (attempt : Nat) : Nat :=
  min (cfg.backoffBase * 2 ^ attempt) cfg.backoffCap

/-- Modelled from the spec: a run outcome reported to `release`. -/
inductive Outcome where
  | success
  | transient (err : String)
  | fatal (err : String)
deriving DecidableEq, Repr

/-- The field update performed by `release` on the released row. -/
def releaseUpdate (outcome : Outcome) (now : Nat) (cfg : SchedulerConfig)
    (ps : ProcessingState) : ProcessingState :=
  match outcome with
  | Outcome.success =>
      { ps with
        status := Status.processed, dueAt := none,
        leaseOwner := none, leaseExpiresAt := none }
  | Outcome.transient e =>
      if cfg.maxAttempts ≤ ps.attemptCount then
        { ps with
          status := Status.failed, dueAt := none, lastError := some e,
          leaseOwner := none, leaseExpiresAt := none }
      else
        { ps with
          status := Status.unprocessed,
          dueAt := some (now + backoff cfg ps.attemptCount),
          leaseOwner := none, leaseExpiresAt := none }
  | Outcome.fatal e =>
      { ps with
        status := Status.failed, dueAt := none, lastError := some e,
        leaseOwner := none, leaseExpiresAt := none }

/-- Modelled from the spec: scheduler `release` — success marks the row
processed; transient failure reschedules with backoff or dead-letters
past the attempt ceiling; fatal dead-letters immediately. -/
def release (eid : Nat) (outcome : Outcome) (now : Nat) (cfg : SchedulerConfig)
    (s : Store) : Store :=
  { s with processing := s.processing.map (fun ps =>
      if ps.entityId = eid then releaseUpdate outcome now cfg ps else ps) }

/-- Patch-merge of metadata: keys present in the patch overwrite, absent
keys of the previous metadata are retained. -/
def mergeMetadata (prev patch : List (String × String)) : List (String × String) :=
  patch ++ prev.filter (fun kv => !decide (kv.1 ∈ patch.map Prod.fst))

/-- Set-difference-then-union update of the relation set:
(prev \ removed) ∪ added. -/
def applyRelations (prev added removed : List Relation) : List Relation :=
  (prev.filter (fun r => !decide (r ∈ removed))) ++
    added.filter (fun r =>
      !decide (r ∈ prev.filter (fun q => !decide (q ∈ removed))))

/-- Error merge: errors of processors that did not run this time are
retained from the prior version; errors of processors that ran are
replaced by whatever errors this run produced (so a processor that ran
and succeeded has its old errors cleared). -/
def mergeErrors (prev newErrors : List ProcessorError) (ran : List String) :
    List ProcessorError :=
  prev.filter (fun e => !decide (e.processorId ∈ ran)) ++ newErrors

/-- The canonical version an entity has before its first stitch. -/
def emptyCanonical (eid : Nat) : CanonicalEntity :=
  { entityId := eid, version := 0, metadata := [], relations := [],
    errors := [], lastStitchedAt := 0 }

/-- Modelled from the spec: the stitcher's merge of one pipeline run into
the previous canonical version. -/
def stitchApply (prev : CanonicalEntity) (r : PipelineResult) (now : Nat) :
    CanonicalEntity :=
  { entityId := prev.entityId,
    version := prev.version + 1,
    metadata := mergeMetadata prev.metadata r.metadataPatch,
    relations := applyRelations prev.relations r.relationsAdded r.relationsRemoved,
    errors := mergeErrors prev.errors r.errors r.ranProcessors,
    lastStitchedAt := now }

/-- Modelled from the spec: stitcher `stitch` with the retraction check —
if the entity no longer exists the result is discarded; otherwise the new
canonical version replaces the old one in a single atomic step. -/
def stitch (eid : Nat) (r : PipelineResult) (now : Nat) (s : Store) : Store :=
  if s.ownership.any (fun o => decide (o.entityId = eid)) then
    { s with canonical :=
        (s.canonical.filter (fun c => !decide (c.entityId = eid))) ++
          [stitchApply ((getCanonical eid s).getD (emptyCanonical eid)) r now] }
  else s

/-- Modelled from the spec: one externally triggered operation on the
store; parameters carry the nondeterminism (which worker, what time). -/
inductive Op where
  | emit (p x payload : String) (now : Nat)
  | retract (p x : String)
  | claim (w : String) (dur now : Nat)
  | release (eid : Nat) (outcome : Outcome) (now : Nat) (cfg : SchedulerConfig)
  | stitch (eid : Nat) (r : PipelineResult) (now : Nat)
deriving DecidableEq, Repr

/-- Interpretation of one operation as a store transformer. -/
def applyOp (s : Store) : Op → Store
  | Op.emit p x payload now => (emit p x payload now s).1
  | Op.retract p x =>
      match retract p x s with
      | Except.ok s2 => s2
      | Except.error _ => s
  | Op.claim w dur now => (claim w dur now s).1
  | Op.release eid outcome now cfg => release eid outcome now cfg s
  | Op.stitch eid r now => stitch eid r now s

/-- The store reached by a sequence of operations from the empty store;
the reachable states of the system are exactly the values of `run`. -/
def run (ops : List Op) : Store := ops.foldl applyOp emptyStore

/-- Whether an operation is a stitch targeting the given entity. -/
def stitchesOn (op : Op) (eid : Nat) : Bool :=
  match op with
  | Op.stitch e _ _ => decide (e = eid)
  | _ => false

/-! Pipeline runner, modelled from the spec. -/

/-- Modelled from the spec: the context a processor sees — the raw
entity's accumulated outputs so far in this run. -/
structure RunContext where
  metadata : List (String × String)
  relations : List Relation
  errors : List ProcessorError

/-- Modelled from the spec: the output of one processor invocation. -/
structure ProcessorOutput where
  metadataPatch : List (String × String)
  relationsAdded : List Relation
  relationsRemoved : List Relation
  errors : List ProcessorError

/-- Modelled from the spec: a registered processor — its id, its stage
membership and its process function (a pure function of the raw entity
and the accumulated context). -/
structure Processor where
  procId : String
  stage : String
  process : RawEntity → RunContext → ProcessorOutput

/-- The empty (no-op) pipeline result. -/
def emptyResult : PipelineResult :=
  { metadataPatch := [], relationsAdded := [], relationsRemoved := [],
    errors := [], ranProcessors := [] }

/-- The run context exposed to later processors after some outputs have
accumulated. -/
def contextOf (r : PipelineResult) : RunContext :=
  { metadata := r.metadataPatch, relations := r.relationsAdded,
    errors := r.errors }

/-- Folding one processor's output into the accumulated run result. -/
def applyOutput (r : PipelineResult) (pid : String) (o : ProcessorOutput) :
    PipelineResult :=
  { metadataPatch := mergeMetadata r.metadataPatch o.metadataPatch,
    relationsAdded := r.relationsAdded ++ o.relationsAdded,
    relationsRemoved := r.relationsRemoved ++ o.relationsRemoved,
    errors := r.errors ++ o.errors,
    ranProcessors := r.ranProcessors ++ [pid] }

/-- Running the processors of one stage, in registration order. -/
def runStage (procs : List Processor) (raw : RawEntity) (st : String)
    (r : PipelineResult) : PipelineResult :=
  (procs.filter (fun p => decide (p.stage = st))).foldl
    (fun acc p => applyOutput acc p.procId (p.process raw (contextOf acc))) r

/-- Modelled from the spec: the pipeline runner — stages in configured
order, processors within a stage in registration order, outputs
accumulated into one PipelineResult. -/
def runPipeline (stages : List String) (procs : List Processor)
    (raw : RawEntity) : PipelineResult :=
  stages.foldl (fun r st => runStage procs raw st r) emptyResult

/-! ### Store invariant and concrete demonstration inputs -/

/-- The structural invariant every reachable store satisfies: entityIds of
processing rows are pairwise distinct, every stored entityId is below the
id counter, and every ownership record has a processing row. -/
def Inv (s : Store) : Prop :=
  (s.processing.map ProcessingState.entityId).Nodup
  ∧ (∀ ps ∈ s.processing, ps.entityId < s.nextId)
  ∧ (∀ r ∈ s.rawEntities, r.entityId < s.nextId)
  ∧ (∀ o ∈ s.ownership, o.entityId < s.nextId)
  ∧ (∀ o ∈ s.ownership, ∃ ps ∈ s.processing, ps.entityId = o.entityId)

/-- A single emit from the empty store. -/
def demoOps : List Op := [Op.emit "prov" "ext" "pay0" 0]

/-- The store after `demoOps`. -/
def demoStore : Store := run demoOps

/-- Two emits with different due times (entity 1 due earlier). -/
def demoOps2 : List Op := [Op.emit "prov" "ext" "pay0" 5, Op.emit "prov" "drb" "pay1" 3]

/-- The store after `demoOps2`. -/
def demoStore2 : Store := run demoOps2

/-- A small pipeline result used to exercise the stitcher. -/
def demoResult : PipelineResult :=
  { metadataPatch := [("exposure", "300")],
    relationsAdded := [{ fromEntityId := 0, relType := "capturedWith", toEntityId := 9 }],
    relationsRemoved := [],
    errors := [],
    ranProcessors := ["headerProc"] }

/-- The demo store after one stitch of entity 0. -/
def demoStitched : Store := stitch 0 demoResult 7 demoStore

/-- One emit followed by one claim. -/
def demoOps3 : List Op := [Op.emit "prov" "ext" "pay0" 0, Op.claim "w1" 10 0]

/-- The processing row entity 0 holds after `demoOps3`. -/
def demoClaimRow : ProcessingState :=
  { entityId := 0, status := Status.claimed, dueAt := some 0,
    attemptCount := 1, leaseOwner := some "w1", leaseExpiresAt := some 10,
    lastError := none }

/-! ### Theorems -/

/-! ### Theorems for the claims about the code under the source tree -/

/-- C1 counterexample: the persisted schema does not comprise the four
tables `raw_entities`, `processing_state`, `canonical_entities`,
`ownership`; none of those names is even present among the schema's
tables. -/
theorem schema_not_four_tables :
    "raw_entities" ∉ schemaTables.map PgTable.name
    ∧ "ownership" ∉ schemaTables.map PgTable.name
    ∧ schemaTables.map PgTable.name
        ≠ ["raw_entities", "processing_state", "canonical_entities", "ownership"] := by
  decide

/-- C1 (amended): the persisted state comprises exactly one table,
`health_check`, with columns `id` (serial, primary key) and `checked_at`
(timestamp, not null, default now). -/
theorem schema_exactly_health_check :
    schemaTables.map PgTable.name = ["health_check"]
    ∧ healthCheck.columns.map PgColumn.name = ["id", "checked_at"]
    ∧ healthCheck.columns.map PgColumn.sqlType = ["serial", "timestamp"]
    ∧ (healthCheck.columns.filter PgColumn.isPrimaryKey).map PgColumn.name = ["id"]
    ∧ (healthCheck.columns.filter PgColumn.isNotNull).map PgColumn.name
        = ["checked_at"]
    ∧ (healthCheck.columns.filter PgColumn.hasDefaultNow).map PgColumn.name
        = ["checked_at"] := by
  decide

/-- C9: every GET /health request is answered by the health handler with a
JSON body whose status is the literal healthy variant (never unhealthy),
whose service is "backend", and whose optional database field is absent,
for every timestamp. -/
theorem health_route_spec (now : String) :
    appFetch { method := Method.GET, path := "/health" } now
      = HttpResponse.json 200 (healthHandler now)
    ∧ (healthHandler now).status = HealthState.healthy
    ∧ (healthHandler now).status ≠ HealthState.unhealthy
    ∧ (healthHandler now).service = "backend"
    ∧ (healthHandler now).timestamp = now
    ∧ (healthHandler now).database = none := by
  refine ⟨?_, rfl, by simp [healthHandler], rfl, rfl, rfl⟩
  simp [appFetch, registeredRoutes, matchesRoute]

/-- Two members of a list whose images under an injective-on-the-list map
coincide are equal, when the mapped list has no duplicates. -/
theorem eq_of_nodup_map {α : Type} {β : Type} {g : α → β} :
    ∀ {l : List α}, (l.map g).Nodup → ∀ {a b : α}, a ∈ l → b ∈ l → g a = g b → a = b := by
  intro l
  induction l with
  | nil => intro _ a b ha; cases ha
  | cons c t ih =>
    intro hn a b ha hb hg
    simp only [List.map_cons, List.nodup_cons] at hn
    rcases List.mem_cons.mp ha with rfl | ha2
    · rcases List.mem_cons.mp hb with rfl | hb2
      · rfl
      · exact absurd (hg ▸ List.mem_map_of_mem g hb2) hn.1
    · rcases List.mem_cons.mp hb with rfl | hb2
      · exact absurd (hg ▸ List.mem_map_of_mem g ha2) hn.1
      · exact ih hn.2 ha2 hb2 hg

/-- Every nonempty list has a first element of minimal measure. -/
theorem exists_min_mem {α : Type} (f : α → Nat) :
    ∀ l : List α, l ≠ [] → ∃ a, a ∈ l ∧ ∀ b ∈ l, f a ≤ f b
  | [], h => absurd rfl h
  | [c], _ => ⟨c, List.mem_singleton.mpr rfl, by
      intro b hb
      rw [List.mem_singleton] at hb
      subst hb
      exact Nat.le_refl _⟩
  | c :: d :: u, _ => by
    obtain ⟨m, hm, hmin⟩ := exists_min_mem f (d :: u) (by simp)
    by_cases hc : f c ≤ f m
    · refine ⟨c, List.mem_cons_self _ _, ?_⟩
      intro b hb
      rcases List.mem_cons.mp hb with rfl | hb2
      · exact Nat.le_refl _
      · exact Nat.le_trans hc (hmin b hb2)
    · refine ⟨m, List.mem_cons_of_mem _ hm, ?_⟩
      intro b hb
      rcases List.mem_cons.mp hb with rfl | hb2
      · exact Nat.le_of_lt (Nat.lt_of_not_le hc)
      · exact hmin b hb2

/-- A successful find? splits the list at the found element, with the
predicate false on everything before it. -/
theorem find?_split {α : Type} (p : α → Bool) :
    ∀ (l : List α) (a : α), l.find? p = some a →
      ∃ l1 l2, l = l1 ++ a :: l2 ∧ ∀ x ∈ l1, p x = false
  | [], a, h => by simp [List.find?] at h
  | c :: t, a, h => by
    by_cases hc : p c = true
    · rw [List.find?_cons_of_pos t hc] at h
      obtain rfl : c = a := by injection h
      exact ⟨[], t, rfl, by intro x hx; cases hx⟩
    · rw [List.find?_cons_of_neg t hc] at h
      obtain ⟨l1, l2, heq, hall⟩ := find?_split p t a h
      refine ⟨c :: l1, l2, by rw [heq]; rfl, ?_⟩
      intro x hx
      rcases List.mem_cons.mp hx with rfl | hx2
      · exact Bool.not_eq_true _ ▸ hc
      · exact hall x hx2

/-- Lookup misses exactly when the key is absent from the key column. -/
theorem lookup_eq_none_key {β : Type} :
    ∀ (l : List (String × β)) (k : String),
      l.lookup k = none ↔ k ∉ l.map Prod.fst := by
  intro l
  induction l with
  | nil => intro k; simp
  | cons kv t ih =>
    intro k
    obtain ⟨k0, v0⟩ := kv
    by_cases hk : k = k0
    · subst hk
      simp [List.lookup_cons]
    · have hb : (k == k0) = false := beq_eq_false_iff_ne.mpr hk
      simp [List.lookup_cons, hb, ih, hk]

/-- Filtering with a predicate that keeps every entry of the looked-up key
does not change the result of lookup. -/
theorem lookup_filter_keyless {β : Type} (pred : String × β → Bool) :
    ∀ (l : List (String × β)) (k : String),
      (∀ kv ∈ l, kv.1 = k → pred kv = true) →
      (l.filter pred).lookup k = l.lookup k := by
  intro l
  induction l with
  | nil => intro k _; rfl
  | cons kv t ih =>
    intro k hkeep
    obtain ⟨k0, v0⟩ := kv
    by_cases hk : k = k0
    · subst hk
      have hp : pred (k, v0) = true := hkeep (k, v0) (List.mem_cons_self _ _) rfl
      rw [List.filter_cons_of_pos hp, List.lookup_cons, List.lookup_cons]
      simp
    · have ht : (t.filter pred).lookup k = t.lookup k :=
        ih k (fun kv hkv h1 => hkeep kv (List.mem_cons_of_mem _ hkv) h1)
      have hb : (k == k0) = false := beq_eq_false_iff_ne.mpr hk
      by_cases hp : pred (k0, v0) = true
      · rw [List.filter_cons_of_pos hp, List.lookup_cons, List.lookup_cons]
        simp [hb, ht]
      · rw [List.filter_cons_of_neg hp, List.lookup_cons]
        simp [hb, ht]

/-! ### Helper lemmas on the merge operations -/

/-- The patch-merge looks up in the patch first and falls back to the
previous metadata. -/
theorem lookup_mergeMetadata (prev patch : List (String × String)) (k : String) :
    (mergeMetadata prev patch).lookup k = (patch.lookup k).or (prev.lookup k) := by
  unfold mergeMetadata
  rw [List.lookup_append]
  cases hp : patch.lookup k with
  | some v => rfl
  | none =>
    have hk : k ∉ patch.map Prod.fst := (lookup_eq_none_key patch k).mp hp
    have hfil :
        (prev.filter (fun kv => !decide (kv.1 ∈ patch.map Prod.fst))).lookup k
          = prev.lookup k := by
      refine lookup_filter_keyless _ prev k ?_
      intro kv _ h1
      simp [h1, hk]
    rw [hfil]

/-- Membership in the stitched relation set is exactly
(previous minus removed) union added. -/
theorem mem_applyRelations (prev added removed : List Relation) (rel : Relation) :
    rel ∈ applyRelations prev added removed ↔
      ((rel ∈ prev ∧ rel ∉ removed) ∨ rel ∈ added) := by
  simp only [applyRelations, List.mem_append, List.mem_filter,
    Bool.not_eq_true', decide_eq_false_iff_not]
  tauto

/-- Membership in the stitched error set: prior errors of processors that
did not run are retained, the run's own errors are added. -/
theorem mem_mergeErrors (prev newE : List ProcessorError) (ran : List String)
    (e : ProcessorError) :
    e ∈ mergeErrors prev newE ran ↔
      ((e ∈ prev ∧ e.processorId ∉ ran) ∨ e ∈ newE) := by
  simp only [mergeErrors, List.mem_append, List.mem_filter,
    Bool.not_eq_true', decide_eq_false_iff_not]

/-- Merging the same patch twice is the same as merging it once. -/
theorem mergeMetadata_idem (m p : List (String × String)) :
    mergeMetadata (mergeMetadata m p) p = mergeMetadata m p := by
  unfold mergeMetadata
  rw [List.filter_append]
  have h1 : p.filter (fun kv => !decide (kv.1 ∈ p.map Prod.fst)) = [] := by
    rw [List.filter_eq_nil_iff]
    intro kv hkv
    simp [List.mem_map_of_mem Prod.fst hkv]
  have h2 :
      (m.filter (fun kv => !decide (kv.1 ∈ p.map Prod.fst))).filter
          (fun kv => !decide (kv.1 ∈ p.map Prod.fst))
        = m.filter (fun kv => !decide (kv.1 ∈ p.map Prod.fst)) := by
    rw [List.filter_eq_self]
    intro kv hkv
    exact (List.mem_filter.mp hkv).2
  rw [h1, h2]
  rfl

/-! ### The invariant holds in every reachable store -/

/-- Mapped entityIds are unchanged by an update that preserves them. -/
theorem map_preserve_entityId {f : ProcessingState → ProcessingState}
    (hf : ∀ ps, (f ps).entityId = ps.entityId) (l : List ProcessingState) :
    (l.map f).map ProcessingState.entityId = l.map ProcessingState.entityId := by
  induction l with
  | nil => rfl
  | cons a t ih => simp [hf a, ih]

/-- releaseUpdate never changes the entityId. -/
theorem releaseUpdate_entityId (outcome : Outcome) (now : Nat)
    (cfg : SchedulerConfig) (ps : ProcessingState) :
    (releaseUpdate outcome now cfg ps).entityId = ps.entityId := by
  cases outcome with
  | success => rfl
  | transient e =>
    by_cases h : cfg.maxAttempts ≤ ps.attemptCount
    · simp [releaseUpdate, h]
    · simp [releaseUpdate, h]
  | fatal e => rfl

/-- The invariant holds of the empty store. -/
theorem inv_emptyStore : Inv emptyStore := by
  refine ⟨?_, ?_, ?_, ?_, ?_⟩ <;> simp [emptyStore, Inv]

/-- The invariant is preserved by every operation. -/
theorem inv_applyOp (s : Store) (op : Op) (h : Inv s) : Inv (applyOp s op) := by
  obtain ⟨hnd, hpb, hrb, hob, hop⟩ := h
  cases op with
  | emit p x payload now =>
    show Inv (emit p x payload now s).1
    unfold emit
    cases hol : ownerLookup p x s with
    | some eid =>
      have hf : ∀ ps : ProcessingState,
          ((fun ps => if ps.entityId = eid then
              { ps with
                status := Status.unprocessed, dueAt := some now,
                leaseOwner := none, leaseExpiresAt := none }
            else ps) ps).entityId = ps.entityId := by
        intro ps
        by_cases hq : ps.entityId = eid <;> simp [hq]
      refine ⟨?_, ?_, ?_, ?_, ?_⟩
      · dsimp only
        rw [map_preserve_entityId hf]
        exact hnd
      · intro ps hps
        dsimp only at hps
        obtain ⟨ps0, hps0, rfl⟩ := List.mem_map.mp hps
        rw [hf ps0]
        exact hpb ps0 hps0
      · intro r hr
        dsimp only at hr
        obtain ⟨r0, hr0, rfl⟩ := List.mem_map.mp hr
        have : (if r0.entityId = eid then { r0 with payload := payload } else r0).entityId
            = r0.entityId := by
          by_cases hq : r0.entityId = eid <;> simp [hq]
        rw [this]
        exact hrb r0 hr0
      · intro o ho
        exact hob o ho
      · intro o ho
        obtain ⟨ps0, hps0, hpe⟩ := hop o ho
        refine ⟨_, List.mem_map_of_mem _ hps0, ?_⟩
        rw [hf ps0]
        exact hpe
    | none =>
      refine ⟨?_, ?_, ?_, ?_, ?_⟩
      · dsimp only
        rw [List.map_append]
        rw [List.nodup_append]
        refine ⟨hnd, by simp, ?_⟩
        intro a ha hb
        simp only [List.map_cons, List.map_nil, List.mem_singleton] at hb
        obtain ⟨ps0, hps0, rfl⟩ := List.mem_map.mp ha
        exact absurd hb (Nat.ne_of_lt (hpb ps0 hps0))
      · intro ps hps
        dsimp only at hps
        rcases List.mem_append.mp hps with h1 | h1
        · exact Nat.lt_trans (hpb ps h1) (Nat.lt_succ_self _)
        · rw [List.mem_singleton] at h1
          subst h1
          exact Nat.lt_succ_self _
      · intro r hr
        dsimp only at hr
        rcases List.mem_append.mp hr with h1 | h1
        · exact Nat.lt_trans (hrb r h1) (Nat.lt_succ_self _)
        · rw [List.mem_singleton] at h1
          subst h1
          exact Nat.lt_succ_self _
      · intro o ho
        dsimp only at ho
        rcases List.mem_append.mp ho with h1 | h1
        · exact Nat.lt_trans (hob o h1) (Nat.lt_succ_self _)
        · rw [List.mem_singleton] at h1
          subst h1
          exact Nat.lt_succ_self _
      · intro o ho
        dsimp only at ho
        rcases List.mem_append.mp ho with h1 | h1
        · obtain ⟨ps0, hps0, hpe⟩ := hop o h1
          exact ⟨ps0, List.mem_append_left _ hps0, hpe⟩
        · rw [List.mem_singleton] at h1
          subst h1
          exact ⟨_, List.mem_append_right _ (List.mem_singleton.mpr rfl), rfl⟩
  | retract p x =>
    show Inv (match retract p x s with
      | Except.ok s2 => s2
      | Except.error _ => s)
    unfold retract
    cases hol : ownerLookup p x s with
    | none => exact ⟨hnd, hpb, hrb, hob, hop⟩
    | some eid =>
      refine ⟨?_, ?_, ?_, ?_, ?_⟩
      · exact List.Nodup.sublist
          (List.Sublist.map _ (List.filter_sublist _)) hnd
      · intro ps hps
        exact hpb ps (List.mem_filter.mp hps).1
      · intro r hr
        exact hrb r (List.mem_filter.mp hr).1
      · intro o ho
        exact hob o (List.mem_filter.mp ho).1
      · intro o ho
        obtain ⟨ho1, ho2⟩ := List.mem_filter.mp ho
        obtain ⟨ps0, hps0, hpe⟩ := hop o ho1
        refine ⟨ps0, List.mem_filter.mpr ⟨hps0, ?_⟩, hpe⟩
        simp only [Bool.not_eq_true', decide_eq_false_iff_not] at ho2 ⊢
        rw [hpe]
        exact ho2
  | claim w dur now =>
    show Inv (claim w dur now s).1
    unfold claim
    cases hsel : selectDue now s.processing with
    | none => exact ⟨hnd, hpb, hrb, hob, hop⟩
    | some chosen =>
      have hf : ∀ ps : ProcessingState,
          ((fun q => if q.entityId = chosen.entityId then claimUpdate w dur now q else q)
            ps).entityId = ps.entityId := by
        intro ps
        by_cases hq : ps.entityId = chosen.entityId <;> simp [hq, claimUpdate]
      refine ⟨?_, ?_, ?_, ?_, ?_⟩
      · dsimp only
        rw [map_preserve_entityId hf]
        exact hnd
      · intro ps hps
        obtain ⟨ps0, hps0, rfl⟩ := List.mem_map.mp hps
        rw [hf ps0]
        exact hpb ps0 hps0
      · exact hrb
      · exact hob
      · intro o ho
        obtain ⟨ps0, hps0, hpe⟩ := hop o ho
        refine ⟨_, List.mem_map_of_mem _ hps0, ?_⟩
        rw [hf ps0]
        exact hpe
  | release eid outcome now cfg =>
    show Inv (release eid outcome now cfg s)
    unfold release
    have hf : ∀ ps : ProcessingState,
        ((fun ps => if ps.entityId = eid then releaseUpdate outcome now cfg ps else ps)
          ps).entityId = ps.entityId := by
      intro ps
      dsimp only
      by_cases hq : ps.entityId = eid
      · rw [if_pos hq, releaseUpdate_entityId]
      · rw [if_neg hq]
    refine ⟨?_, ?_, ?_, ?_, ?_⟩
    · dsimp only
      rw [map_preserve_entityId hf]
      exact hnd
    · intro ps hps
      obtain ⟨ps0, hps0, rfl⟩ := List.mem_map.mp hps
      rw [hf ps0]
      exact hpb ps0 hps0
    · exact hrb
    · exact hob
    · intro o ho
      obtain ⟨ps0, hps0, hpe⟩ := hop o ho
      refine ⟨_, List.mem_map_of_mem _ hps0, ?_⟩
      rw [hf ps0]
      exact hpe
  | stitch eid r now =>
    show Inv (stitch eid r now s)
    unfold stitch
    by_cases hc : s.ownership.any (fun o => decide (o.entityId = eid)) = true
    · rw [if_pos hc]
      exact ⟨hnd, hpb, hrb, hob, hop⟩
    · rw [if_neg hc]
      exact ⟨hnd, hpb, hrb, hob, hop⟩

/-- The invariant holds after any operation sequence from the empty
store. -/
theorem inv_run (ops : List Op) : Inv (run ops) := by
  suffices h : ∀ (l : List Op) (s : Store), Inv s → Inv (l.foldl applyOp s) by
    exact h ops emptyStore inv_emptyStore
  intro l
  induction l with
  | nil => intro s hs; exact hs
  | cons op t ih =>
    intro s hs
    exact ih (applyOp s op) (inv_applyOp s op hs)

/-! ### Intake claims -/

/-- C3: in any reachable store, emit on a new identity creates the
RawEntity, the OwnershipRecord and a ProcessingState with status
unprocessed, dueAt = now and attemptCount = 0, returning a fresh entityId
(one owned by no existing record); emit on an existing identity updates
the RawEntity payload, resets its ProcessingState to unprocessed with
dueAt = now, and returns the existing entityId. -/
theorem emit_spec (ops : List Op) (p x payload : String) (now : Nat) :
    (ownerLookup p x (run ops) = none →
      (emit p x payload now (run ops)).2 = (run ops).nextId
      ∧ (emit p x payload now (run ops)).2
          ∉ (run ops).ownership.map OwnershipRecord.entityId
      ∧ ({ entityId := (run ops).nextId, providerId := p, externalId := x,
           payload := payload, createdAt := now } : RawEntity)
          ∈ (emit p x payload now (run ops)).1.rawEntities
      ∧ ({ providerId := p, externalId := x,
           entityId := (run ops).nextId } : OwnershipRecord)
          ∈ (emit p x payload now (run ops)).1.ownership
      ∧ ({ entityId := (run ops).nextId, status := Status.unprocessed,
           dueAt := some now, attemptCount := 0, leaseOwner := none,
           leaseExpiresAt := none, lastError := none } : ProcessingState)
          ∈ (emit p x payload now (run ops)).1.processing)
    ∧ (∀ eid, ownerLookup p x (run ops) = some eid →
        (emit p x payload now (run ops)).2 = eid
        ∧ (∀ r ∈ (emit p x payload now (run ops)).1.rawEntities,
            r.entityId = eid → r.payload = payload)
        ∧ (∃ ps ∈ (emit p x payload now (run ops)).1.processing,
            ps.entityId = eid ∧ ps.status = Status.unprocessed
              ∧ ps.dueAt = some now)) := by
  obtain ⟨hnd, hpb, hrb, hob, hop⟩ := inv_run ops
  constructor
  · intro hol
    unfold emit
    rw [hol]
    dsimp only
    refine ⟨rfl, ?_, ?_, ?_, ?_⟩
    · intro hmem
      obtain ⟨o, ho, hoe⟩ := List.mem_map.mp hmem
      exact absurd hoe (Nat.ne_of_lt (hob o ho))
    · exact List.mem_append_right _ (List.mem_singleton.mpr rfl)
    · exact List.mem_append_right _ (List.mem_singleton.mpr rfl)
    · exact List.mem_append_right _ (List.mem_singleton.mpr rfl)
  · intro eid hol
    have hoo : ∃ o ∈ (run ops).ownership, o.entityId = eid := by
      unfold ownerLookup at hol
      obtain ⟨o, hfind, hmap⟩ := Option.map_eq_some'.mp hol
      exact ⟨o, List.mem_of_find?_eq_some hfind, hmap⟩
    obtain ⟨o, ho, hoe⟩ := hoo
    obtain ⟨ps0, hps0, hpe⟩ := hop o ho
    have hcond : ps0.entityId = eid := hpe.trans hoe
    unfold emit
    rw [hol]
    dsimp only
    refine ⟨rfl, ?_, ?_⟩
    · intro r hr hre
      obtain ⟨r0, hr0, rfl⟩ := List.mem_map.mp hr
      by_cases hq : r0.entityId = eid
      · rw [if_pos hq]
      · rw [if_neg hq] at hre ⊢
        exact absurd hre hq
    · refine ⟨_, List.mem_map_of_mem _ hps0, ?_⟩
      dsimp only
      rw [if_pos hcond]
      exact ⟨hcond, rfl, rfl⟩

/-- Witness for C3 at a concrete reachable store: re-emitting the
identity (prov, ext) reuses entityId 0, updates the payload and resets
the processing state. -/
theorem emit_spec_witness :
    (emit "prov" "ext" "pay9" 9 (run demoOps)).2 = 0
    ∧ (∀ r ∈ (emit "prov" "ext" "pay9" 9 (run demoOps)).1.rawEntities,
        r.entityId = 0 → r.payload = "pay9")
    ∧ (∃ ps ∈ (emit "prov" "ext" "pay9" 9 (run demoOps)).1.processing,
        ps.entityId = 0 ∧ ps.status = Status.unprocessed
          ∧ ps.dueAt = some 9) :=
  (emit_spec demoOps "prov" "ext" "pay9" 9).2 0 (by decide)

/-- C4: retract with no OwnershipRecord fails with NotFoundError and
leaves the store untouched; retract of a registered identity removes the
RawEntity, ProcessingState, CanonicalEntity and OwnershipRecord of that
entity in one synchronous step (afterwards no table holds a record for
it) while every record of other entities is preserved. -/
theorem retract_spec (p x : String) (s : Store) :
    (ownerLookup p x s = none → retract p x s = Except.error "NotFoundError")
    ∧ (∀ eid, ownerLookup p x s = some eid →
        ∃ s2, retract p x s = Except.ok s2
          ∧ (∀ r ∈ s2.rawEntities, r.entityId ≠ eid)
          ∧ (∀ ps ∈ s2.processing, ps.entityId ≠ eid)
          ∧ (∀ c ∈ s2.canonical, c.entityId ≠ eid)
          ∧ (∀ o ∈ s2.ownership, o.entityId ≠ eid)
          ∧ getCanonical eid s2 = none
          ∧ getProcessingStatus eid s2 = none
          ∧ (∀ r ∈ s.rawEntities, r.entityId ≠ eid → r ∈ s2.rawEntities)
          ∧ (∀ ps ∈ s.processing, ps.entityId ≠ eid → ps ∈ s2.processing)
          ∧ (∀ c ∈ s.canonical, c.entityId ≠ eid → c ∈ s2.canonical)
          ∧ (∀ o ∈ s.ownership, o.entityId ≠ eid → o ∈ s2.ownership)) := by
  constructor
  · intro hol
    unfold retract
    rw [hol]
  · intro eid hol
    unfold retract
    rw [hol]
    refine ⟨_, rfl, ?_, ?_, ?_, ?_, ?_, ?_, ?_, ?_, ?_, ?_⟩
    · intro r hr
      have := (List.mem_filter.mp hr).2
      simpa using this
    · intro ps hps
      have := (List.mem_filter.mp hps).2
      simpa using this
    · intro c hc
      have := (List.mem_filter.mp hc).2
      simpa using this
    · intro o ho
      have := (List.mem_filter.mp ho).2
      simpa using this
    · refine List.find?_eq_none.mpr ?_
      intro c hc
      have := (List.mem_filter.mp hc).2
      simpa using this
    · refine List.find?_eq_none.mpr ?_
      intro ps hps
      have := (List.mem_filter.mp hps).2
      simpa using this
    · intro r hr hne
      exact List.mem_filter.mpr ⟨hr, by simpa using hne⟩
    · intro ps hps hne
      exact List.mem_filter.mpr ⟨hps, by simpa using hne⟩
    · intro c hc hne
      exact List.mem_filter.mpr ⟨hc, by simpa using hne⟩
    · intro o ho hne
      exact List.mem_filter.mpr ⟨ho, by simpa using hne⟩

/-- Witness for C4 at a concrete store: retracting (prov, ext) succeeds
and leaves no record of entity 0 in any of the four collections. -/
theorem retract_spec_witness :
    ∃ s2, retract "prov" "ext" demoStore = Except.ok s2
      ∧ (∀ r ∈ s2.rawEntities, r.entityId ≠ 0)
      ∧ (∀ ps ∈ s2.processing, ps.entityId ≠ 0)
      ∧ (∀ c ∈ s2.canonical, c.entityId ≠ 0)
      ∧ (∀ o ∈ s2.ownership, o.entityId ≠ 0)
      ∧ getCanonical 0 s2 = none
      ∧ getProcessingStatus 0 s2 = none
      ∧ (∀ r ∈ demoStore.rawEntities, r.entityId ≠ 0 → r ∈ s2.rawEntities)
      ∧ (∀ ps ∈ demoStore.processing, ps.entityId ≠ 0 → ps ∈ s2.processing)
      ∧ (∀ c ∈ demoStore.canonical, c.entityId ≠ 0 → c ∈ s2.canonical)
      ∧ (∀ o ∈ demoStore.ownership, o.entityId ≠ 0 → o ∈ s2.ownership) :=
  (retract_spec "prov" "ext" demoStore).2 0 (by decide)

/-! ### Scheduler claims -/

/-- C6: claim with nothing due returns none and changes no state; a
successful claim returns the entityId of a row that is eligible
(unprocessed or expired-lease, and due), has the minimal due time among
all eligible rows, and is the first such row in insertion order among
those tied at the minimum; the claimed row gets status claimed,
leaseOwner = worker, leaseExpiresAt = now + leaseDuration and an
incremented attemptCount, while rows of other entities are unchanged. -/
theorem claim_spec (w : String) (dur now : Nat) (s : Store) :
    ((claim w dur now s).2 = none →
      (claim w dur now s).1 = s
      ∧ ∀ ps ∈ s.processing, eligible now ps = false)
    ∧ (∀ eid, (claim w dur now s).2 = some eid →
      ∃ ps ∈ s.processing, ps.entityId = eid
        ∧ eligible now ps = true
        ∧ (∀ q ∈ s.processing, eligible now q = true → dueVal ps ≤ dueVal q)
        ∧ (∃ l1 l2, s.processing.filter (eligible now) = l1 ++ ps :: l2
            ∧ ∀ q ∈ l1, dueVal ps < dueVal q)
        ∧ claimUpdate w dur now ps ∈ (claim w dur now s).1.processing
        ∧ (claimUpdate w dur now ps).status = Status.claimed
        ∧ (claimUpdate w dur now ps).leaseOwner = some w
        ∧ (claimUpdate w dur now ps).leaseExpiresAt = some (now + dur)
        ∧ (claimUpdate w dur now ps).attemptCount = ps.attemptCount + 1
        ∧ (∀ q ∈ s.processing, q.entityId ≠ eid →
            q ∈ (claim w dur now s).1.processing)) := by
  constructor
  · intro hnone
    cases hsel : selectDue now s.processing with
    | some ps =>
      exfalso
      unfold claim at hnone
      rw [hsel] at hnone
      simp at hnone
    | none =>
      unfold claim
      rw [hsel]
      refine ⟨rfl, ?_⟩
      intro ps hps
      cases helig : eligible now ps with
      | false => rfl
      | true =>
        exfalso
        have hmem : ps ∈ s.processing.filter (eligible now) :=
          List.mem_filter.mpr ⟨hps, helig⟩
        obtain ⟨a, ha, hamin⟩ :=
          exists_min_mem dueVal _ (List.ne_nil_of_mem hmem)
        have hpred : (s.processing.filter (eligible now)).all
            (fun q => decide (dueVal a ≤ dueVal q)) = true :=
          List.all_eq_true.mpr (fun b hb => decide_eq_true (hamin b hb))
        unfold selectDue at hsel
        exact absurd hpred (by simpa using List.find?_eq_none.mp hsel a ha)
  · intro eid hsome
    cases hsel : selectDue now s.processing with
    | none =>
      exfalso
      unfold claim at hsome
      rw [hsel] at hsome
      simp at hsome
    | some ps =>
      have heid : ps.entityId = eid := by
        unfold claim at hsome
        rw [hsel] at hsome
        dsimp only at hsome
        exact Option.some.inj hsome
      have hsel2 := hsel
      unfold selectDue at hsel2
      have hmem := List.mem_of_find?_eq_some hsel2
      have hpred := List.find?_some hsel2
      have hps_proc : ps ∈ s.processing := (List.mem_filter.mp hmem).1
      have helig : eligible now ps = true := (List.mem_filter.mp hmem).2
      have hmin : ∀ q ∈ s.processing, eligible now q = true →
          dueVal ps ≤ dueVal q := by
        intro q hq hqe
        have hqf : q ∈ s.processing.filter (eligible now) :=
          List.mem_filter.mpr ⟨hq, hqe⟩
        exact of_decide_eq_true (List.all_eq_true.mp hpred q hqf)
      obtain ⟨l1, l2, hsplit, hfail⟩ := find?_split _ _ _ hsel2
      have htie : ∀ q ∈ l1, dueVal ps < dueVal q := by
        intro q hq
        have hbad := hfail q hq
        rw [List.all_eq_false] at hbad
        obtain ⟨b, hb, hnb⟩ := hbad
        have hlt : dueVal b < dueVal q := by
          rw [decide_eq_true_eq] at hnb
          exact Nat.lt_of_not_le hnb
        have hbf : b ∈ s.processing ∧ eligible now b = true :=
          List.mem_filter.mp hb
        exact Nat.lt_of_le_of_lt (hmin b hbf.1 hbf.2) hlt
      refine ⟨ps, hps_proc, heid, helig, hmin, ⟨l1, l2, hsplit, htie⟩,
        ?_, rfl, rfl, rfl, rfl, ?_⟩
      · unfold claim
        rw [hsel]
        dsimp only
        have hin := List.mem_map_of_mem
          (fun q => if q.entityId = ps.entityId then claimUpdate w dur now q else q)
          hps_proc
        simpa using hin
      · intro q hq hne
        unfold claim
        rw [hsel]
        dsimp only
        have hin := List.mem_map_of_mem
          (fun q => if q.entityId = ps.entityId then claimUpdate w dur now q else q)
          hq
        have hneq : ¬ q.entityId = ps.entityId := by
          intro hcontra
          exact hne (hcontra.trans heid)
        dsimp only at hin
        rw [if_neg hneq] at hin
        exact hin

/-- Witness for C6 at a concrete store with two due entities: the claim
picks entity 1, whose due time 3 beats entity 0's due time 5. -/
theorem claim_spec_witness :
    ∃ ps ∈ demoStore2.processing, ps.entityId = 1
      ∧ eligible 10 ps = true
      ∧ (∀ q ∈ demoStore2.processing, eligible 10 q = true →
          dueVal ps ≤ dueVal q)
      ∧ (∃ l1 l2, demoStore2.processing.filter (eligible 10) = l1 ++ ps :: l2
          ∧ ∀ q ∈ l1, dueVal ps < dueVal q)
      ∧ claimUpdate "w" 7 10 ps ∈ (claim "w" 7 10 demoStore2).1.processing
      ∧ (claimUpdate "w" 7 10 ps).status = Status.claimed
      ∧ (claimUpdate "w" 7 10 ps).leaseOwner = some "w"
      ∧ (claimUpdate "w" 7 10 ps).leaseExpiresAt = some (10 + 7)
      ∧ (claimUpdate "w" 7 10 ps).attemptCount = ps.attemptCount + 1
      ∧ (∀ q ∈ demoStore2.processing, q.entityId ≠ 1 →
          q ∈ (claim "w" 7 10 demoStore2).1.processing) :=
  (claim_spec "w" 7 10 demoStore2).2 1 (by decide)

/-! ### Stitcher claims -/

/-- C7: stitching an existing entity with previous canonical version c
produces a committed canonical version whose metadata is c's metadata
overwritten by the keys of the patch (absent keys retained), whose
relation set is (c's relations minus relationsRemoved) union
relationsAdded, and whose error set retains c's errors from processors
that did not run while dropping errors of processors that ran (their new
errors, if any, are taken instead); the version is incremented. -/
theorem stitch_spec (eid : Nat) (r : PipelineResult) (now : Nat) (s : Store)
    (c : CanonicalEntity)
    (hown : ∃ o ∈ s.ownership, o.entityId = eid)
    (hc : getCanonical eid s = some c) :
    ∃ c2, getCanonical eid (stitch eid r now s) = some c2
      ∧ (∀ k, c2.metadata.lookup k
          = (r.metadataPatch.lookup k).or (c.metadata.lookup k))
      ∧ (∀ rel, rel ∈ c2.relations ↔
          ((rel ∈ c.relations ∧ rel ∉ r.relationsRemoved)
            ∨ rel ∈ r.relationsAdded))
      ∧ (∀ e, e ∈ c2.errors ↔
          ((e ∈ c.errors ∧ e.processorId ∉ r.ranProcessors) ∨ e ∈ r.errors))
      ∧ c2.version = c.version + 1
      ∧ c2.lastStitchedAt = now := by
  have hany : s.ownership.any (fun o => decide (o.entityId = eid)) = true := by
    obtain ⟨o, ho, hoe⟩ := hown
    exact List.any_eq_true.mpr ⟨o, ho, decide_eq_true hoe⟩
  have hce : c.entityId = eid := by
    have := List.find?_some hc
    simpa using this
  have hc2 : List.find? (fun c0 => decide (c0.entityId = eid)) s.canonical
      = some c := hc
  refine ⟨stitchApply c r now, ?_, ?_, ?_, ?_, rfl, rfl⟩
  · unfold stitch
    rw [if_pos hany]
    unfold getCanonical
    dsimp only
    rw [List.find?_append]
    have h1 : (s.canonical.filter (fun c0 => !decide (c0.entityId = eid))).find?
        (fun c0 => decide (c0.entityId = eid)) = none := by
      refine List.find?_eq_none.mpr ?_
      intro c0 hc0
      have := (List.mem_filter.mp hc0).2
      simpa using this
    rw [h1, Option.none_or, hc2]
    simp [List.find?, stitchApply, hce]
  · intro k
    exact lookup_mergeMetadata c.metadata r.metadataPatch k
  · intro rel
    exact mem_applyRelations c.relations r.relationsAdded r.relationsRemoved rel
  · intro e
    exact mem_mergeErrors c.errors r.errors r.ranProcessors e

/-- Witness for C7: stitching entity 0 of the demo store a second time,
on top of the canonical version produced by the first stitch. -/
theorem stitch_spec_witness :
    ∃ c2, getCanonical 0 (stitch 0 demoResult 8 demoStitched) = some c2
      ∧ (∀ k, c2.metadata.lookup k
          = (demoResult.metadataPatch.lookup k).or
              ((stitchApply (emptyCanonical 0) demoResult 7).metadata.lookup k))
      ∧ (∀ rel, rel ∈ c2.relations ↔
          ((rel ∈ (stitchApply (emptyCanonical 0) demoResult 7).relations
              ∧ rel ∉ demoResult.relationsRemoved)
            ∨ rel ∈ demoResult.relationsAdded))
      ∧ (∀ e, e ∈ c2.errors ↔
          ((e ∈ (stitchApply (emptyCanonical 0) demoResult 7).errors
              ∧ e.processorId ∉ demoResult.ranProcessors)
            ∨ e ∈ demoResult.errors))
      ∧ c2.version = (stitchApply (emptyCanonical 0) demoResult 7).version + 1
      ∧ c2.lastStitchedAt = 8 :=
  stitch_spec 0 demoResult 8 demoStitched
    (stitchApply (emptyCanonical 0) demoResult 7) (by decide) (by decide)

/-- C8: running the pipeline and stitching twice on an unchanged raw
entity is idempotent — the second stitched version has the same metadata
and the same relation set as the first, differing only in version
bookkeeping. -/
theorem pipeline_stitch_idempotent (stages : List String)
    (procs : List Processor) (raw : RawEntity) (c0 : CanonicalEntity)
    (n1 n2 : Nat) :
    (stitchApply (stitchApply c0 (runPipeline stages procs raw) n1)
        (runPipeline stages procs raw) n2).metadata
      = (stitchApply c0 (runPipeline stages procs raw) n1).metadata
    ∧ (∀ rel,
        rel ∈ (stitchApply (stitchApply c0 (runPipeline stages procs raw) n1)
            (runPipeline stages procs raw) n2).relations
          ↔ rel ∈ (stitchApply c0 (runPipeline stages procs raw) n1).relations)
    ∧ (stitchApply (stitchApply c0 (runPipeline stages procs raw) n1)
        (runPipeline stages procs raw) n2).version
      = (stitchApply c0 (runPipeline stages procs raw) n1).version + 1 := by
  refine ⟨?_, ?_, rfl⟩
  · exact mergeMetadata_idem c0.metadata
      (runPipeline stages procs raw).metadataPatch
  · intro rel
    simp only [stitchApply]
    rw [mem_applyRelations, mem_applyRelations]
    tauto

/-! ### Read-contract and lease claims -/

/-- A single step that is not a stitch of the entity cannot make its
canonical version appear. -/
theorem getCanonical_none_step (eid : Nat) (s : Store) (op : Op)
    (h : getCanonical eid s = none) (hop2 : stitchesOn op eid = false) :
    getCanonical eid (applyOp s op) = none := by
  cases op with
  | emit p x payload now =>
    show getCanonical eid (emit p x payload now s).1 = none
    unfold emit
    cases hol : ownerLookup p x s with
    | some e2 =>
      unfold getCanonical at h ⊢
      exact h
    | none =>
      unfold getCanonical at h ⊢
      exact h
  | retract p x =>
    show getCanonical eid (match retract p x s with
      | Except.ok s2 => s2
      | Except.error _ => s) = none
    unfold retract
    cases hol : ownerLookup p x s with
    | none => exact h
    | some e2 =>
      unfold getCanonical at h ⊢
      refine List.find?_eq_none.mpr ?_
      intro c hcmem
      exact List.find?_eq_none.mp h c (List.mem_filter.mp hcmem).1
  | claim w dur now =>
    show getCanonical eid (claim w dur now s).1 = none
    unfold claim
    cases hsel : selectDue now s.processing with
    | none => exact h
    | some ps =>
      unfold getCanonical at h ⊢
      exact h
  | release e2 outcome now cfg =>
    show getCanonical eid (release e2 outcome now cfg s) = none
    unfold release
    unfold getCanonical at h ⊢
    exact h
  | stitch e2 r now =>
    show getCanonical eid (stitch e2 r now s) = none
    have hne : e2 ≠ eid := by simpa [stitchesOn] using hop2
    unfold stitch
    by_cases hany : s.ownership.any (fun o => decide (o.entityId = e2)) = true
    · rw [if_pos hany]
      unfold getCanonical at h ⊢
      dsimp only
      rw [List.find?_append]
      have h1 : (s.canonical.filter (fun c0 => !decide (c0.entityId = e2))).find?
          (fun c0 => decide (c0.entityId = eid)) = none := by
        refine List.find?_eq_none.mpr ?_
        intro c0 hc0
        exact List.find?_eq_none.mp h c0 (List.mem_filter.mp hc0).1
      rw [h1, Option.none_or]
      have hent : (stitchApply
          ((s.canonical.find? (fun c0 => decide (c0.entityId = e2))).getD
            (emptyCanonical e2)) r now).entityId = e2 := by
        cases hg : s.canonical.find? (fun c0 => decide (c0.entityId = e2)) with
        | none => rfl
        | some cx =>
          have := List.find?_some hg
          simpa using this
      refine List.find?_eq_none.mpr ?_
      intro c hcmem
      rw [List.mem_singleton] at hcmem
      subst hcmem
      simp only [decide_eq_true_eq]
      intro hcontra
      rw [hent] at hcontra
      exact hne hcontra
    · rw [if_neg hany]
      exact h

/-- C2: getCanonical returns NotFound (none) for an entity as long as the
operation history contains no stitch of that entity: an entity becomes
visible through the read contract only after at least one pipeline run has
committed a stitch, and the canonical store never holds a
partially-processed record. -/
theorem getCanonical_none_until_stitch (ops : List Op) (eid : Nat)
    (h : ∀ op ∈ ops, stitchesOn op eid = false) :
    getCanonical eid (run ops) = none := by
  suffices haux : ∀ (l : List Op) (s : Store), getCanonical eid s = none →
      (∀ op ∈ l, stitchesOn op eid = false) →
      getCanonical eid (l.foldl applyOp s) = none by
    exact haux ops emptyStore rfl h
  intro l
  induction l with
  | nil =>
    intro s hs _
    exact hs
  | cons op t ih =>
    intro s hs hops
    exact ih (applyOp s op)
      (getCanonical_none_step eid s op hs (hops op (List.mem_cons_self _ _)))
      (fun o ho => hops o (List.mem_cons_of_mem _ ho))

/-- Witness for C2: after a single emit (no stitch), entity 0 has no
canonical version. -/
theorem getCanonical_none_until_stitch_witness :
    getCanonical 0 (run demoOps) = none :=
  getCanonical_none_until_stitch demoOps 0 (by decide)

/-- C5: in every reachable store, two processing rows of the same entity
that are both claimed with unexpired leases are one and the same row, so
at most one worker holds a valid lease on an entity. -/
theorem lease_mutual_exclusion (ops : List Op) (now : Nat)
    (ps1 ps2 : ProcessingState)
    (h1 : ps1 ∈ (run ops).processing) (h2 : ps2 ∈ (run ops).processing)
    (heq : ps1.entityId = ps2.entityId)
    (hs1 : ps1.status = Status.claimed) (hs2 : ps2.status = Status.claimed)
    (hv1 : ∃ t1, ps1.leaseExpiresAt = some t1 ∧ now < t1)
    (hv2 : ∃ t2, ps2.leaseExpiresAt = some t2 ∧ now < t2) :
    ps1 = ps2 ∧ ps1.leaseOwner = ps2.leaseOwner := by
  have hnd := (inv_run ops).1
  have hps : ps1 = ps2 := eq_of_nodup_map hnd h1 h2 heq
  exact ⟨hps, by rw [hps]⟩

/-- Witness for C5 at a concrete reachable store: entity 0's single
claimed row with a lease valid at time 5. -/
theorem lease_mutual_exclusion_witness :
    demoClaimRow = demoClaimRow
      ∧ demoClaimRow.leaseOwner = demoClaimRow.leaseOwner :=
  lease_mutual_exclusion demoOps3 5 demoClaimRow demoClaimRow
    (by decide) (by decide) rfl rfl rfl
    ⟨10, rfl, by decide⟩ ⟨10, rfl, by decide⟩

end Sidereal
